import Mathlib

/-!
Shallow embedding of the VM runner storage-synchronization and multi-backend
read cache from `core/lib/zksync_core/src/vm_runner/storage.rs`.

Modelling conventions:
* `L1BatchNumber` is `Nat`.
* Storage keys, values, code hashes and opaque payloads (envs, blocks) are `Nat`.
* The source-of-truth relational store (Postgres, accessed through external DAL
  code not part of this repository's modelled sources) is abstracted as a
  structure of total query functions, `SourceOfTruth`.
* `BTreeMap<L1BatchNumber, BatchData>` is modelled as an association list kept
  sorted by key (`listInsert` preserves sortedness, matching BTreeMap's ordered
  iteration); `HashMap` fields inside `BatchDiff` are plain association lists.
* Errors (`anyhow::Result`) are abstracted away: every external query is total,
  so `Result<Option<T>>` collapses to `Option T`.
* Async/lock structure is flattened: a read takes the current shared `State`
  value; the single writer's loop iteration is a pure state-transition function
  parameterised by what the external world returned during that iteration
  (loader readings, stop flag, RocksDB-synchronization outcome).
-/

namespace VmRunner

/-- Mirrors `BatchExecuteData`: data needed to execute an L1 batch.
`l1_batch_env` and `system_env` are opaque payloads; `l2_blocks` is the ordered
list of L2-block payloads. -/
structure BatchExecuteData where
  l1_batch_env : Nat
  system_env : Nat
  l2_blocks : List Nat
  deriving DecidableEq, Repr

/-- Mirrors `zksync_state::BatchDiff`: in-memory delta a snapshot lacks for one
batch. `state_diff` maps (hashed) storage slots to values; `enum_index_diff`
maps slots to first-write enumeration indices; `factory_dep_diff` maps code
hashes to (opaque) bytecodes. All are association lists standing in for hash
maps. -/
structure BatchDiff where
  state_diff : List (Nat × Nat)
  enum_index_diff : List (Nat × Nat)
  factory_dep_diff : List (Nat × Nat)
  deriving DecidableEq, Repr

/-- Mirrors the private `BatchData` struct: execute data plus diff. -/
structure BatchData where
  execute_data : BatchExecuteData
  diff : BatchDiff
  deriving DecidableEq, Repr

/-- Mirrors `zksync_state::RocksdbStorage` as far as the claims need it: the
local snapshot handle, abstracted to the slot values baked into it
(association list; a missing slot reads as `0`, standing for `H256::zero()`). -/
structure RocksdbStorage where
  base : List (Nat × Nat)
  deriving DecidableEq, Repr

/-- Mirrors the private `State` struct: the shared cache state.
`l1_batch_number` is the snapshot floor; `storage` is the pending map
(`BTreeMap<L1BatchNumber, BatchData>`), an association list sorted by key. -/
structure State where
  rocksdb : Option RocksdbStorage
  l1_batch_number : Nat
  storage : List (Nat × BatchData)
  deriving DecidableEq, Repr

/-- The state `VmRunnerStorage::new` installs: no snapshot, floor 0, empty
pending map. -/
def initial_state : State :=
  { rocksdb := none, l1_batch_number := 0, storage := [] }

/-- `BTreeMap::contains_key` on the sorted association list. -/
def containsKey (l : List (Nat × BatchData)) (k : Nat) : Bool :=
  (l.lookup k).isSome

/-- Mirrors `State::can_be_used_for_l1_batch`: whether this state can serve as
a `ReadStorage` source for the given L1 batch. -/
def State.can_be_used_for_l1_batch (s : State) (l1_batch_number : Nat) : Bool :=
  l1_batch_number == s.l1_batch_number || containsKey s.storage l1_batch_number

/-- Mirrors `zksync_state::PgOrRocksdbStorage`: either a Postgres-backed view
(carrying the batch number it was opened at, as `access_storage_pg` does) or a
snapshot-plus-stacked-diffs view (`RocksdbWithMemory`). -/
inductive PgOrRocksdbStorage where
  | Postgres (l1_batch_number : Nat)
  | RocksdbWithMemory (rocksdb : RocksdbStorage) (batch_diffs : List BatchDiff)
  deriving DecidableEq, Repr

/-- Mirrors `VmRunnerStorage::access_storage_inner`. The `stop_receiver`
argument is present (and unused) exactly as in the source. If no snapshot
exists the Postgres-backed view is returned; else unavailable batches give
`none`; else the composite view stacks the diffs of all pending batches with
key `<= l1_batch_number`, in the map's ascending-key iteration order. -/
def access_storage_inner (st : State) (_stop_receiver : Bool)
    (l1_batch_number : Nat) : Option PgOrRocksdbStorage :=
  match st.rocksdb with
  | none => some (.Postgres l1_batch_number)
  | some rocksdb =>
    if ¬ st.can_be_used_for_l1_batch l1_batch_number then
      none
    else
      let batch_diffs := st.storage.filterMap fun p =>
        if p.1 ≤ l1_batch_number then some p.2.diff else none
      some (.RocksdbWithMemory rocksdb batch_diffs)

/-- Mirrors the `ReadStorageFactory` impl's `access_storage`, which forwards to
`access_storage_inner`. -/
def access_storage (st : State) (stop_receiver : Bool)
    (l1_batch_number : Nat) : Option PgOrRocksdbStorage :=
  access_storage_inner st stop_receiver l1_batch_number

/-- Abstraction of the source-of-truth store (Postgres DAL queries issued by
this module; the DAL implementations are external to the modelled sources).
`first_l2_block` models `L1BatchParamsProvider::load_first_l2_block_in_batch`;
`batch_params` models `load_l1_batch_params` (system env, L1 batch env);
`l2_blocks_for_batch` models `get_l2_blocks_to_execute_for_l1_batch`;
`touched_slots`, `initial_writes`, `factory_deps` model the three diff-component
queries issued during preload. -/
structure SourceOfTruth where
  first_l2_block : Nat → Option Nat
  batch_params : Nat → Nat × Nat
  l2_blocks_for_batch : Nat → List Nat
  touched_slots : Nat → List (Nat × Nat)
  initial_writes : Nat → List (Nat × Nat)
  factory_deps : Nat → List (Nat × Nat)

/-- Mirrors `StorageSyncTask::load_batch_execute_data`: returns `none` when the
batch has no first L2 block yet, otherwise assembles the batch's params and
ordered L2 blocks. -/
def load_batch_execute_data (store : SourceOfTruth) (l1_batch_number : Nat) :
    Option BatchExecuteData :=
  match store.first_l2_block l1_batch_number with
  | none => none
  | some _ =>
    let p := store.batch_params l1_batch_number
    some { l1_batch_env := p.2, system_env := p.1,
           l2_blocks := store.l2_blocks_for_batch l1_batch_number }

/-- Mirrors `VmRunnerStorage::load_batch`: before a snapshot exists the source
of truth is queried directly; afterwards the pending map answers. -/
def load_batch (store : SourceOfTruth) (st : State) (l1_batch_number : Nat) :
    Option BatchExecuteData :=
  if st.rocksdb.isNone then
    load_batch_execute_data store l1_batch_number
  else
    match st.storage.lookup l1_batch_number with
    | none => none
    | some batch_data => some batch_data.execute_data

/-- `BTreeMap::insert` on the sorted association list: places the new entry at
its key's position, replacing an existing entry with the same key. -/
def listInsert (k : Nat) (v : BatchData) :
    List (Nat × BatchData) → List (Nat × BatchData)
  | [] => [(k, v)]
  | (k', v') :: rest =>
    if k < k' then (k, v) :: (k', v') :: rest
    else if k = k' then (k, v) :: rest
    else (k', v') :: listInsert k v rest

/-- The loader readings one loop iteration observes: mirrors
`VmRunnerStorageLoader::latest_processed_batch` and
`VmRunnerStorageLoader::last_ready_to_be_loaded_batch`. -/
structure LoaderView where
  latest_processed_batch : Nat
  last_ready_to_be_loaded_batch : Nat
  deriving DecidableEq, Repr

/-- One preload insertion body: fetch the three diff components, assemble a
`BatchDiff`, and insert `{execute_data, diff}` into the pending map (mirrors
the body of the `for` loop in `StorageSyncTask::run`). -/
def preloadInsert (store : SourceOfTruth) (l1_batch_number : Nat)
    (execute_data : BatchExecuteData) (st : State) : State :=
  let diff : BatchDiff :=
    { state_diff := store.touched_slots l1_batch_number,
      enum_index_diff := store.initial_writes l1_batch_number,
      factory_dep_diff := store.factory_deps l1_batch_number }
  { st with storage := listInsert l1_batch_number ⟨execute_data, diff⟩ st.storage }

/-- The preload `for` loop of `StorageSyncTask::run`, recursing on the number
of remaining batch numbers: for each batch number in increasing order starting
at `from_`, fetch its execute data; if absent, stop; else insert the batch data
and continue. Returns the final state. -/
def preloadFrom (store : SourceOfTruth) (st : State) (from_ : Nat) :
    Nat → State
  | 0 => st
  | count + 1 =>
    match load_batch_execute_data store from_ with
    | none => st
    | some execute_data =>
      preloadFrom store (preloadInsert store from_ execute_data st) (from_ + 1) count

/-- The states published after each individual preload insertion (each
insertion happens under its own write-lock acquisition in the source, so each
intermediate state is observable by readers). -/
def preloadStates (store : SourceOfTruth) (st : State) (from_ : Nat) :
    Nat → List State
  | 0 => []
  | count + 1 =>
    match load_batch_execute_data store from_ with
    | none => []
    | some execute_data =>
      let st' := preloadInsert store from_ execute_data st
      st' :: preloadStates store st' (from_ + 1) count

/-- The write-lock update of `StorageSyncTask::run`: install the newly
synchronized snapshot handle, set the floor to `latest_processed_batch`, and
evict every pending entry with key `<= latest_processed_batch` (the source's
`retain(|l1_batch_number, _| l1_batch_number > &latest_processed_batch)`). -/
def floorUpdate (r : RocksdbStorage) (latest_processed_batch : Nat)
    (st : State) : State :=
  { rocksdb := some r,
    l1_batch_number := latest_processed_batch,
    storage := st.storage.filter fun p => latest_processed_batch < p.1 }

/-- `max_present` in `StorageSyncTask::run`: the last key of the pending map
after eviction, or `latest_processed_batch` when it is empty. -/
def maxPresent (latest_processed_batch : Nat) (st : State) : Nat :=
  ((st.storage.getLast?).map Prod.fst).getD latest_processed_batch

/-- The advance path of one loop iteration, after `synchronize` returned the
new handle `r`: floor update + eviction, then the preload pass from
`max_present + 1` up to `last_ready_to_be_loaded_batch`. -/
def advanceStep (store : SourceOfTruth) (loader : LoaderView)
    (r : RocksdbStorage) (st : State) : State :=
  let st1 := floorUpdate r loader.latest_processed_batch st
  let mp := maxPresent loader.latest_processed_batch st1
  preloadFrom store st1 (mp + 1) (loader.last_ready_to_be_loaded_batch - mp)

/-- Every shared-state value committed during the advance path, in order: the
state right after the write-lock floor update, then the state after each
individual preload insertion. -/
def advanceStates (store : SourceOfTruth) (loader : LoaderView)
    (r : RocksdbStorage) (st : State) : List State :=
  let st1 := floorUpdate r loader.latest_processed_batch st
  let mp := maxPresent loader.latest_processed_batch st1
  st1 :: preloadStates store st1 (mp + 1) (loader.last_ready_to_be_loaded_batch - mp)

/-- Outcome of one iteration of the steady-state loop in
`StorageSyncTask::run`, each carrying the shared state at loop exit /
iteration end: `stopped` models `return Ok(())` (cancellation), `slept` the
sleep-and-restart no-op path, `advanced` a completed synchronization step. -/
inductive StepResult where
  | stopped (st : State)
  | slept (st : State)
  | advanced (st : State)
  deriving DecidableEq, Repr

/-- The steady-state no-op condition: the raw RocksDB instance already records
`latest_processed_batch + 1` as its next batch (i.e. the snapshot covers
exactly up to `latest_processed_batch`) and the pending map contains the
`last_ready_to_be_loaded_batch` key. `cellNext` is what
`rocksdb_builder.l1_batch_number()` returned this iteration. -/
def noopCondition (loader : LoaderView) (cellNext : Option Nat)
    (st : State) : Bool :=
  cellNext == some (loader.latest_processed_batch + 1)
    && containsKey st.storage loader.last_ready_to_be_loaded_batch

/-- One iteration of the steady-state loop of `StorageSyncTask::run`,
parameterised by what the external world produced during the iteration:
`stop` is the stop receiver's value at the top of the loop, `cellNext` the raw
RocksDB's recorded next batch number, and `syncResult` the outcome of
`rocksdb_builder.synchronize` (`none` when interrupted by the stop signal,
`some r` the newly caught-up handle). -/
def syncIteration (store : SourceOfTruth) (loader : LoaderView) (stop : Bool)
    (cellNext : Option Nat) (syncResult : Option RocksdbStorage)
    (st : State) : StepResult :=
  if stop then
    .stopped st
  else if noopCondition loader cellNext st then
    .slept st
  else
    match syncResult with
    | none => .stopped st
    | some r => .advanced (advanceStep store loader r st)

/-- The external inputs of one loop iteration, bundled for trace reasoning. -/
structure IterInput where
  loader : LoaderView
  stop : Bool
  cellNext : Option Nat
  syncResult : Option RocksdbStorage

/-- The shared state at the end of one iteration (cancellation and the no-op
path leave it untouched). -/
def iterState (store : SourceOfTruth) (inp : IterInput) (st : State) : State :=
  match syncIteration store inp.loader inp.stop inp.cellNext inp.syncResult st with
  | .stopped s => s
  | .slept s => s
  | .advanced s => s

/-- The sequence of shared-state values along a run of the loop: the starting
state followed by the state after each successive iteration. -/
def runStates (store : SourceOfTruth) : List IterInput → State → List State
  | [], st => [st]
  | inp :: rest, st => st :: runStates store rest (iterState store inp st)

/-- Invariant I1: every key in the pending map is strictly greater than the
floor. -/
def I1 (st : State) : Prop :=
  ∀ p ∈ st.storage, st.l1_batch_number < p.1

instance (st : State) : Decidable (I1 st) :=
  List.decidableBAll _ st.storage

/-- Modelled from the spec: reading a storage slot from a composite
`RocksdbWithMemory` view (the `ReadStorage` impl for `RocksdbWithMemory` lives
in `zksync_state`, outside the modelled sources). Per §4.2, later (numerically
higher) batches' diffs take precedence on conflicting keys, and the snapshot
base answers when no stacked diff touches the key (missing base slots read as
zero). -/
def composite_value (rocksdb : RocksdbStorage) (batch_diffs : List BatchDiff)
    (key : Nat) : Nat :=
  let fromDiffs := batch_diffs.foldl
    (fun acc d =>
      match d.state_diff.lookup key with
      | some v => some v
      | none => acc)
    none
  match fromDiffs with
  | some v => v
  | none => (rocksdb.base.lookup key).getD 0

/-! Concrete fixtures used by witness theorems. -/

/-- A concrete batch-execute payload. -/
def exData : BatchExecuteData := ⟨1, 2, [3]⟩

/-- A concrete diff setting slot 7 to 66. -/
def exDiff1 : BatchDiff := ⟨[(7, 66)], [], []⟩

/-- A concrete snapshot whose base holds 55 at slot 7. -/
def exR : RocksdbStorage := ⟨[(7, 55)]⟩

/-- A concrete shared state: snapshot `exR`, floor 3, one pending batch 4. -/
def exView : State := ⟨some exR, 3, [(4, ⟨exData, exDiff1⟩)]⟩

/-- A concrete source of truth with data for batches up to 12. -/
def exStore : SourceOfTruth :=
  { first_l2_block := fun b => if b ≤ 12 then some b else none,
    batch_params := fun b => (b, b + 100),
    l2_blocks_for_batch := fun b => [b],
    touched_slots := fun b => [(7, b)],
    initial_writes := fun _ => [],
    factory_deps := fun _ => [] }

/-- Like `exStore` but with a gap: batch 11 has no execute data. -/
def exGapStore : SourceOfTruth :=
  { exStore with first_l2_block := fun b => if b = 11 then none else some b }

/-- A concrete shared state: snapshot present, floor 10, nothing pending. -/
def exState10 : State := ⟨some ⟨[(7, 0)]⟩, 10, []⟩

/-- Concrete loader readings: latest processed 10, last ready 12. -/
def exLoader : LoaderView := ⟨10, 12⟩

/-! Helper lemmas about the embedded operations. -/

theorem lookup_cons_eqn (a k : Nat) (v : BatchData) (l : List (Nat × BatchData)) :
    ((k, v) :: l).lookup a = if a = k then some v else l.lookup a := by
  by_cases h : a = k
  · simp [List.lookup, h]
  · have hb : (a == k) = false := by simpa using h
    simp [List.lookup, hb, h]

theorem lookup_listInsert (k k' : Nat) (v : BatchData)
    (l : List (Nat × BatchData)) :
    (listInsert k v l).lookup k' = if k' = k then some v else l.lookup k' := by
  induction l with
  | nil =>
    show ((k, v) :: []).lookup k' = _
    rw [lookup_cons_eqn]
  | cons p rest ih =>
    obtain ⟨a, b⟩ := p
    by_cases h1 : k < a
    · simp only [listInsert, if_pos h1]
      rw [lookup_cons_eqn]
    · by_cases h2 : k = a
      · subst h2
        have heq : listInsert k v ((k, b) :: rest) = (k, v) :: rest := by
          simp [listInsert, h1]
        rw [heq, lookup_cons_eqn, lookup_cons_eqn]
        by_cases h3 : k' = k <;> simp [h3]
      · simp only [listInsert]
        rw [if_neg h1, if_neg h2, lookup_cons_eqn, lookup_cons_eqn, ih]
        by_cases h3 : k' = a
        · have h4 : k' ≠ k := fun hk => h2 ((hk ▸ h3 : k = a))
          have h5 : a ≠ k := fun hak => h2 hak.symm
          simp [h3, h4, h5]
        · by_cases h4 : k' = k
          · simp [h4, h2]
          · simp [h3, h4]

theorem mem_listInsert (k : Nat) (v : BatchData) (l : List (Nat × BatchData)) :
    ∀ p ∈ listInsert k v l, p = (k, v) ∨ p ∈ l := by
  induction l with
  | nil =>
    intro p hp
    simp only [listInsert, List.mem_singleton] at hp
    exact Or.inl hp
  | cons q rest ih =>
    obtain ⟨a, b⟩ := q
    intro p hp
    by_cases h1 : k < a
    · simp only [listInsert] at hp
      rw [if_pos h1] at hp
      rcases List.mem_cons.mp hp with h | h
      · exact Or.inl h
      · exact Or.inr h
    · by_cases h2 : k = a
      · simp only [listInsert] at hp
        rw [if_neg h1, if_pos h2] at hp
        rcases List.mem_cons.mp hp with h | h
        · exact Or.inl h
        · exact Or.inr (List.mem_cons_of_mem _ h)
      · simp only [listInsert] at hp
        rw [if_neg h1, if_neg h2] at hp
        rcases List.mem_cons.mp hp with h | h
        · exact Or.inr (by simp [h])
        · rcases ih p h with h' | h'
          · exact Or.inl h'
          · exact Or.inr (List.mem_cons_of_mem _ h')

theorem preloadInsert_l1_batch_number (store : SourceOfTruth) (n : Nat)
    (ed : BatchExecuteData) (st : State) :
    (preloadInsert store n ed st).l1_batch_number = st.l1_batch_number := rfl

theorem preloadFrom_l1_batch_number (store : SourceOfTruth) :
    ∀ (count from_ : Nat) (st : State),
      (preloadFrom store st from_ count).l1_batch_number = st.l1_batch_number := by
  intro count
  induction count with
  | zero => intro from_ st; rfl
  | succ n ih =>
    intro from_ st
    unfold preloadFrom
    cases h : load_batch_execute_data store from_ with
    | none => rfl
    | some ed => simpa [preloadInsert_l1_batch_number] using ih (from_ + 1) (preloadInsert store from_ ed st)

theorem filterMap_diff_eq (l : List (Nat × BatchData)) (b : Nat) :
    (l.filterMap fun p => if p.1 ≤ b then some p.2.diff else none)
      = (l.filter fun p => p.1 ≤ b).map fun p => p.2.diff := by
  induction l with
  | nil => rfl
  | cons p rest ih =>
    by_cases h : p.1 ≤ b <;>
      simp [List.filterMap_cons, List.filter_cons, h, ih]

/-! Theorems settling the claims. -/

theorem preloadFrom_succ_none (store : SourceOfTruth) (st : State)
    (from_ n : Nat) (h : load_batch_execute_data store from_ = none) :
    preloadFrom store st from_ (n + 1) = st := by
  unfold preloadFrom
  rw [h]

theorem preloadFrom_succ_some (store : SourceOfTruth) (st : State)
    (from_ n : Nat) (ed : BatchExecuteData)
    (h : load_batch_execute_data store from_ = some ed) :
    preloadFrom store st from_ (n + 1)
      = preloadFrom store (preloadInsert store from_ ed st) (from_ + 1) n := by
  conv_lhs => unfold preloadFrom
  rw [h]

theorem preloadStates_succ_some (store : SourceOfTruth) (st : State)
    (from_ n : Nat) (ed : BatchExecuteData)
    (h : load_batch_execute_data store from_ = some ed) :
    preloadStates store st from_ (n + 1)
      = preloadInsert store from_ ed st
          :: preloadStates store (preloadInsert store from_ ed st) (from_ + 1) n := by
  conv_lhs => unfold preloadStates
  rw [h]

theorem preloadStates_props (store : SourceOfTruth) :
    ∀ (count from_ : Nat) (st : State), ∀ s ∈ preloadStates store st from_ count,
      s.l1_batch_number = st.l1_batch_number
      ∧ ∀ p ∈ s.storage, p ∈ st.storage ∨ from_ ≤ p.1 := by
  intro count
  induction count with
  | zero => intro from_ st s hs; simp [preloadStates] at hs
  | succ n ih =>
    intro from_ st s hs
    unfold preloadStates at hs
    cases hload : load_batch_execute_data store from_ with
    | none => rw [hload] at hs; simp at hs
    | some ed =>
      rw [hload] at hs
      rcases List.mem_cons.mp hs with h | h
      · subst h
        refine ⟨rfl, fun p hp => ?_⟩
        rcases mem_listInsert from_ _ st.storage p hp with h' | h'
        · exact Or.inr (by simp [h'])
        · exact Or.inl h'
      · obtain ⟨hfl, hst⟩ := ih (from_ + 1) (preloadInsert store from_ ed st) s h
        refine ⟨hfl, fun p hp => ?_⟩
        rcases hst p hp with h' | h'
        · rcases mem_listInsert from_ _ st.storage p h' with h'' | h''
          · exact Or.inr (by simp [h''])
          · exact Or.inl h''
        · exact Or.inr (by omega)

theorem preloadFrom_reaches (store : SourceOfTruth) :
    ∀ (count from_ : Nat) (st : State),
      preloadFrom store st from_ count = st
      ∨ preloadFrom store st from_ count ∈ preloadStates store st from_ count := by
  intro count
  induction count with
  | zero => intro from_ st; exact Or.inl rfl
  | succ n ih =>
    intro from_ st
    cases hload : load_batch_execute_data store from_ with
    | none => exact Or.inl (preloadFrom_succ_none store st from_ n hload)
    | some ed =>
      rw [preloadFrom_succ_some store st from_ n ed hload,
        preloadStates_succ_some store st from_ n ed hload]
      rcases ih (from_ + 1) (preloadInsert store from_ ed st) with h | h
      · exact Or.inr (by rw [h]; exact List.mem_cons_self _ _)
      · exact Or.inr (List.mem_cons_of_mem _ h)

theorem I1_floorUpdate (r : RocksdbStorage) (latest : Nat) (st : State) :
    I1 (floorUpdate r latest st) := by
  intro p hp
  have := List.mem_filter.mp hp
  simpa using this.2

theorem maxPresent_ge_floor (r : RocksdbStorage) (latest : Nat) (st : State) :
    latest ≤ maxPresent latest (floorUpdate r latest st) := by
  unfold maxPresent
  cases hlast : (floorUpdate r latest st).storage.getLast? with
  | none => simp
  | some p =>
    obtain ⟨hne, hpe⟩ :=
      List.mem_getLast?_eq_getLast (Option.mem_def.mpr hlast)
    have hp : p ∈ (floorUpdate r latest st).storage :=
      hpe ▸ List.getLast_mem hne
    have := I1_floorUpdate r latest st p hp
    simp only [floorUpdate] at this
    simp [hlast]
    omega

theorem advanceStates_eq (store : SourceOfTruth) (loader : LoaderView)
    (r : RocksdbStorage) (st : State) :
    advanceStates store loader r st
      = floorUpdate r loader.latest_processed_batch st
          :: preloadStates store (floorUpdate r loader.latest_processed_batch st)
              (maxPresent loader.latest_processed_batch
                  (floorUpdate r loader.latest_processed_batch st) + 1)
              (loader.last_ready_to_be_loaded_batch
                - maxPresent loader.latest_processed_batch
                    (floorUpdate r loader.latest_processed_batch st)) := rfl

theorem advanceStep_eq (store : SourceOfTruth) (loader : LoaderView)
    (r : RocksdbStorage) (st : State) :
    advanceStep store loader r st
      = preloadFrom store (floorUpdate r loader.latest_processed_batch st)
          (maxPresent loader.latest_processed_batch
              (floorUpdate r loader.latest_processed_batch st) + 1)
          (loader.last_ready_to_be_loaded_batch
            - maxPresent loader.latest_processed_batch
                (floorUpdate r loader.latest_processed_batch st)) := rfl

/-- C2: after the write-lock floor update (which evicts every pending entry at
or below the new floor) and after each subsequent preload insertion — i.e.
after every mutation of the shared state an advance step commits — every key
in the pending map is strictly greater than the floor (Invariant I1). The
second conjunct states I1 for the state the whole advance step ends with. -/
theorem pending_keys_above_floor (store : SourceOfTruth) (loader : LoaderView)
    (r : RocksdbStorage) (st : State) :
    (∀ s ∈ advanceStates store loader r st, I1 s)
    ∧ I1 (advanceStep store loader r st) := by
  have hI1 : I1 (floorUpdate r loader.latest_processed_batch st) :=
    I1_floorUpdate r loader.latest_processed_batch st
  have hmp : loader.latest_processed_batch
      ≤ maxPresent loader.latest_processed_batch
          (floorUpdate r loader.latest_processed_batch st) :=
    maxPresent_ge_floor r loader.latest_processed_batch st
  have hfl1 : (floorUpdate r loader.latest_processed_batch st).l1_batch_number
      = loader.latest_processed_batch := rfl
  have key : ∀ s ∈ preloadStates store (floorUpdate r loader.latest_processed_batch st)
      (maxPresent loader.latest_processed_batch
          (floorUpdate r loader.latest_processed_batch st) + 1)
      (loader.last_ready_to_be_loaded_batch
        - maxPresent loader.latest_processed_batch
            (floorUpdate r loader.latest_processed_batch st)), I1 s := by
    intro s hs
    obtain ⟨hfl, hst⟩ := preloadStates_props store _ _ _ s hs
    intro p hp
    rw [hfl, hfl1]
    rcases hst p hp with h' | h'
    · have := hI1 p h'
      rw [hfl1] at this
      omega
    · omega
  refine ⟨?_, ?_⟩
  · intro s hs
    rw [advanceStates_eq] at hs
    rcases List.mem_cons.mp hs with h | h
    · exact h ▸ hI1
    · exact key s h
  · rw [advanceStep_eq]
    rcases preloadFrom_reaches store _ _ _ with h | h
    · rw [h]; exact hI1
    · exact key _ h

/-- Witness for `pending_keys_above_floor` at a concrete advance step. -/
theorem pending_keys_above_floor_witness :
    floorUpdate ⟨[(7, 0)]⟩ 10 exState10
        ∈ advanceStates exStore exLoader ⟨[(7, 0)]⟩ exState10
    ∧ I1 (floorUpdate ⟨[(7, 0)]⟩ 10 exState10)
    ∧ I1 (advanceStep exStore exLoader ⟨[(7, 0)]⟩ exState10) :=
  ⟨by decide,
    (pending_keys_above_floor exStore exLoader ⟨[(7, 0)]⟩ exState10).1 _ (by decide),
    (pending_keys_above_floor exStore exLoader ⟨[(7, 0)]⟩ exState10).2⟩

theorem advanceStep_l1_batch_number (store : SourceOfTruth)
    (loader : LoaderView) (r : RocksdbStorage) (st : State) :
    (advanceStep store loader r st).l1_batch_number
      = loader.latest_processed_batch := by
  rw [advanceStep_eq, preloadFrom_l1_batch_number store]
  rfl

theorem iterState_floor (store : SourceOfTruth) (inp : IterInput) (st : State) :
    (iterState store inp st).l1_batch_number = st.l1_batch_number
    ∨ (iterState store inp st).l1_batch_number
        = inp.loader.latest_processed_batch := by
  unfold iterState syncIteration
  by_cases h1 : inp.stop
  · simp [h1]
  · by_cases h2 : noopCondition inp.loader inp.cellNext st
    · simp [h1, h2]
    · cases h3 : inp.syncResult with
      | none => simp [h1, h2, h3]
      | some r => simp [h1, h2, h3, advanceStep_l1_batch_number]

theorem runStates_floor_ge (store : SourceOfTruth) :
    ∀ (inputs : List IterInput) (st : State),
      (∀ i ∈ inputs, st.l1_batch_number ≤ i.loader.latest_processed_batch) →
      (inputs.map fun i => i.loader.latest_processed_batch).Pairwise (· ≤ ·) →
      ∀ s ∈ runStates store inputs st,
        st.l1_batch_number ≤ s.l1_batch_number := by
  intro inputs
  induction inputs with
  | nil =>
    intro st h1 h2 s hs
    unfold runStates at hs
    simp at hs
    subst hs
    exact le_refl _
  | cons inp rest ih =>
    intro st h1 h2 s hs
    simp only [List.map_cons] at h2
    obtain ⟨hpw1, hpw2⟩ := List.pairwise_cons.mp h2
    unfold runStates at hs
    rcases List.mem_cons.mp hs with h | h
    · subst h; exact le_refl _
    · have hstep := iterState_floor store inp st
      have hle : st.l1_batch_number ≤ (iterState store inp st).l1_batch_number := by
        rcases hstep with h' | h'
        · omega
        · have := h1 inp (List.mem_cons_self _ _)
          omega
      have hrest : ∀ i ∈ rest,
          (iterState store inp st).l1_batch_number
            ≤ i.loader.latest_processed_batch := by
        intro i hi
        rcases hstep with h' | h'
        · have := h1 i (List.mem_cons_of_mem _ hi)
          omega
        · have hpw := hpw1 _ (List.mem_map_of_mem _ hi)
          omega
      exact le_trans hle (ih (iterState store inp st) hrest hpw2 s h)

/-- C3: the floor stored in the shared state is non-decreasing along any run
of the steady-state loop from the initial state, provided the loader's
`latest_processed_batch` readings are themselves non-decreasing (they report
"highest batch fully processed", which only ever advances): no iteration sets
the floor below any previously stored floor. -/
theorem floor_monotone (store : SourceOfTruth) (inputs : List IterInput)
    (h : (inputs.map fun i => i.loader.latest_processed_batch).Pairwise (· ≤ ·)) :
    ((runStates store inputs initial_state).map State.l1_batch_number).Pairwise
      (· ≤ ·) := by
  have main : ∀ (l : List IterInput) (st : State),
      (∀ i ∈ l, st.l1_batch_number ≤ i.loader.latest_processed_batch) →
      (l.map fun i => i.loader.latest_processed_batch).Pairwise (· ≤ ·) →
      ((runStates store l st).map State.l1_batch_number).Pairwise (· ≤ ·) := by
    intro l
    induction l with
    | nil => intro st h1 h2; simp [runStates]
    | cons inp rest ih =>
      intro st h1 h2
      simp only [List.map_cons] at h2
      obtain ⟨hpw1, hpw2⟩ := List.pairwise_cons.mp h2
      unfold runStates
      rw [List.map_cons, List.pairwise_cons]
      have hstep := iterState_floor store inp st
      have hle : st.l1_batch_number ≤ (iterState store inp st).l1_batch_number := by
        rcases hstep with h' | h'
        · omega
        · have := h1 inp (List.mem_cons_self _ _)
          omega
      have hrest : ∀ i ∈ rest,
          (iterState store inp st).l1_batch_number
            ≤ i.loader.latest_processed_batch := by
        intro i hi
        rcases hstep with h' | h'
        · have := h1 i (List.mem_cons_of_mem _ hi)
          omega
        · have hpw := hpw1 _ (List.mem_map_of_mem _ hi)
          omega
      constructor
      · intro b hb
        rcases List.mem_map.mp hb with ⟨s, hs, rfl⟩
        exact le_trans hle
          (runStates_floor_ge store rest (iterState store inp st) hrest hpw2 s hs)
      · exact ih (iterState store inp st) hrest hpw2
  exact main inputs initial_state (fun i _ => Nat.zero_le _) h

/-- Concrete two-iteration input sequence: latest processed advances from 10
to 11, both iterations complete their synchronization. -/
def exInputs : List IterInput :=
  [⟨⟨10, 12⟩, false, some 10, some ⟨[(7, 0)]⟩⟩,
   ⟨⟨11, 12⟩, false, some 11, some ⟨[(7, 11)]⟩⟩]

/-- Witness for `floor_monotone` on a concrete two-iteration run. -/
theorem floor_monotone_witness :
    ((exInputs.map fun i => i.loader.latest_processed_batch).Pairwise (· ≤ ·))
    ∧ ((runStates exStore exInputs initial_state).map
        State.l1_batch_number).Pairwise (· ≤ ·) :=
  ⟨by decide, floor_monotone exStore exInputs (by decide)⟩

/-- C5: while no snapshot exists in the shared state, `access_storage`
(`access_storage_inner`) returns the source-of-truth (Postgres)-backed view,
never `none`, regardless of the requested batch number. -/
theorem pre_snapshot_always_pg (st : State) (s : Bool) (b : Nat)
    (h : st.rocksdb = none) :
    access_storage_inner st s b = some (.Postgres b) := by
  unfold access_storage_inner
  rw [h]

/-- Witness for `pre_snapshot_always_pg` at a concrete state. -/
theorem pre_snapshot_always_pg_witness :
    initial_state.rocksdb = none ∧
      access_storage_inner initial_state false 42 = some (.Postgres 42) :=
  ⟨by decide, pre_snapshot_always_pg initial_state false 42 (by decide)⟩

/-- C4: when a snapshot exists but the requested batch is neither the floor
nor a key in the pending map, `access_storage` (`access_storage_inner`)
returns `none`. -/
theorem unavailable_batch_none (st : State) (s : Bool) (b : Nat)
    (r : RocksdbStorage) (h1 : st.rocksdb = some r)
    (h2 : b ≠ st.l1_batch_number) (h3 : containsKey st.storage b = false) :
    access_storage_inner st s b = none := by
  unfold access_storage_inner
  rw [h1]
  have hc : st.can_be_used_for_l1_batch b = false := by
    simp [State.can_be_used_for_l1_batch, h2, h3]
  simp [hc]

/-- Witness for `unavailable_batch_none`: floor 3, pending {4}, request 9. -/
theorem unavailable_batch_none_witness :
    (exView.rocksdb = some exR ∧ 9 ≠ exView.l1_batch_number ∧
        containsKey exView.storage 9 = false) ∧
      access_storage_inner exView false 9 = none :=
  ⟨⟨by decide, by decide, by decide⟩,
    unavailable_batch_none exView false 9 exR (by decide) (by decide) (by decide)⟩

/-- C6: `load_batch` queries the source of truth directly (returning its
answer verbatim, including `none`) while no snapshot exists; once a snapshot
exists it answers purely from the pending map: `none` when the key is absent,
the cached execute data when present. -/
theorem load_batch_resolution (store : SourceOfTruth) (st : State) (b : Nat) :
    (st.rocksdb = none → load_batch store st b = load_batch_execute_data store b)
    ∧ (st.rocksdb.isSome = true →
        (containsKey st.storage b = false → load_batch store st b = none)
        ∧ ∀ bd, st.storage.lookup b = some bd →
            load_batch store st b = some bd.execute_data) := by
  refine ⟨fun h => ?_, fun h => ⟨fun habs => ?_, fun bd hbd => ?_⟩⟩
  · simp [load_batch, h]
  · have h' : st.rocksdb.isNone = false := by
      cases hr : st.rocksdb <;> simp_all
    have : st.storage.lookup b = none := by
      simpa [containsKey, Option.isSome_iff_exists] using habs
    simp [load_batch, h', this]
  · have h' : st.rocksdb.isNone = false := by
      cases hr : st.rocksdb <;> simp_all
    simp [load_batch, h', hbd]

/-- Witness for `load_batch_resolution`: the pre-snapshot case answers from
the source of truth, the post-snapshot case from the pending map. -/
theorem load_batch_resolution_witness :
    (initial_state.rocksdb = none
        ∧ load_batch exStore initial_state 5 = load_batch_execute_data exStore 5)
    ∧ (exView.rocksdb.isSome = true
        ∧ exView.storage.lookup 4 = some ⟨exData, exDiff1⟩
        ∧ load_batch exStore exView 4 = some exData) :=
  ⟨⟨by decide, (load_batch_resolution exStore initial_state 5).1 (by decide)⟩,
    ⟨by decide, by decide,
      ((load_batch_resolution exStore exView 4).2 (by decide)).2
        ⟨exData, exDiff1⟩ (by decide)⟩⟩

theorem preloadFrom_gap_lookup (store : SourceOfTruth) (B : Nat)
    (hB : load_batch_execute_data store B = none) :
    ∀ (count from_ : Nat) (st : State) (k : Nat),
      from_ ≤ B → B < from_ + count → B ≤ k →
      (preloadFrom store st from_ count).storage.lookup k = st.storage.lookup k := by
  intro count
  induction count with
  | zero => intro from_ st k h1 h2 hk; omega
  | succ n ih =>
    intro from_ st k h1 h2 hk
    by_cases hfb : from_ = B
    · subst hfb
      unfold preloadFrom
      rw [hB]
    · have hlt : from_ < B := lt_of_le_of_ne h1 hfb
      unfold preloadFrom
      cases hload : load_batch_execute_data store from_ with
      | none => rfl
      | some ed =>
        rw [ih (from_ + 1) (preloadInsert store from_ ed st) k (by omega) (by omega) hk]
        show (listInsert from_ _ st.storage).lookup k = st.storage.lookup k
        rw [lookup_listInsert]
        have hne : k ≠ from_ := by omega
        simp [hne]

/-- C7: a preload pass processes batch numbers in increasing order starting at
`max_present + 1`, and when the execute data for some batch `B` of the range
is absent from the store, nothing is inserted for `B` or any higher batch —
the pass stops at the gap instead of skipping it. Stated both for the raw
preload loop (`preloadFrom`) and for the full advance path (`advanceStep`),
whose pending map stays untouched at and above `B` relative to the state the
write-lock floor update produced. -/
theorem preload_gap_stops :
    (∀ (store : SourceOfTruth) (B count from_ : Nat) (st : State) (k : Nat),
        load_batch_execute_data store B = none →
        from_ ≤ B → B < from_ + count → B ≤ k →
        (preloadFrom store st from_ count).storage.lookup k
          = st.storage.lookup k)
    ∧ (∀ (store : SourceOfTruth) (loader : LoaderView) (r : RocksdbStorage)
        (st : State) (B k : Nat),
        load_batch_execute_data store B = none →
        maxPresent loader.latest_processed_batch
            (floorUpdate r loader.latest_processed_batch st) < B →
        B ≤ loader.last_ready_to_be_loaded_batch →
        B ≤ k →
        (advanceStep store loader r st).storage.lookup k
          = (floorUpdate r loader.latest_processed_batch st).storage.lookup k) := by
  constructor
  · intro store B count from_ st k hB h1 h2 hk
    exact preloadFrom_gap_lookup store B hB count from_ st k h1 h2 hk
  · intro store loader r st B k hB hmp hready hk
    unfold advanceStep
    exact preloadFrom_gap_lookup store B hB _ _ _ k (by omega) (by omega) hk

/-- Witness for `preload_gap_stops`: batch 11 has no execute data in
`exGapStore`, so a preload pass over 11..12 leaves batch 12 (and 11)
uninserted. -/
theorem preload_gap_stops_witness :
    (load_batch_execute_data exGapStore 11 = none ∧ (11 : Nat) ≤ 11
        ∧ (11 : Nat) < 11 + 2 ∧ (11 : Nat) ≤ 12)
    ∧ (preloadFrom exGapStore exState10 11 2).storage.lookup 12
        = exState10.storage.lookup 12 :=
  ⟨⟨by decide, by decide, by decide, by decide⟩,
    preload_gap_stops.1 exGapStore 11 2 11 exState10 12 (by decide) (by decide)
      (by decide) (by decide)⟩

/-- C1: when a snapshot exists and the requested batch is the floor or a
pending key, `access_storage` returns the composite view: the snapshot base
together with exactly the diffs of pending entries with key `<= b`, taken in
the pending map's ascending-key order (second conjunct: filtering the sorted
map keeps the keys strictly increasing). Third conjunct: the spec's concrete
scenario — base value `V0` for key `K` at floor `F` and a pending diff for
`F + 1` setting `K` to `V1`; the view for `F + 1` reflects `V1`, the view for
`F` reflects `V0` (view reads via the spec-modelled `composite_value`). -/
theorem view_composition :
    (∀ (st : State) (s : Bool) (b : Nat) (r : RocksdbStorage),
        st.rocksdb = some r →
        (b = st.l1_batch_number ∨ containsKey st.storage b = true) →
        access_storage_inner st s b
          = some (.RocksdbWithMemory r
              ((st.storage.filter fun p => p.1 ≤ b).map fun p => p.2.diff)))
    ∧ (∀ (st : State) (b : Nat),
        (st.storage.map Prod.fst).Pairwise (· < ·) →
        ((st.storage.filter fun p => p.1 ≤ b).map Prod.fst).Pairwise (· < ·))
    ∧ (∀ (F K V0 V1 : Nat) (ed : BatchExecuteData) (s : Bool),
        access_storage_inner
            ⟨some ⟨[(K, V0)]⟩, F, [(F + 1, ⟨ed, ⟨[(K, V1)], [], []⟩⟩)]⟩ s (F + 1)
          = some (.RocksdbWithMemory ⟨[(K, V0)]⟩ [⟨[(K, V1)], [], []⟩])
        ∧ composite_value ⟨[(K, V0)]⟩ [⟨[(K, V1)], [], []⟩] K = V1
        ∧ access_storage_inner
            ⟨some ⟨[(K, V0)]⟩, F, [(F + 1, ⟨ed, ⟨[(K, V1)], [], []⟩⟩)]⟩ s F
          = some (.RocksdbWithMemory ⟨[(K, V0)]⟩ [])
        ∧ composite_value ⟨[(K, V0)]⟩ [] K = V0) := by
  refine ⟨?_, ?_, ?_⟩
  · intro st s b r h1 h2
    have hc : st.can_be_used_for_l1_batch b = true := by
      rcases h2 with h | h <;>
        simp [State.can_be_used_for_l1_batch, h]
    unfold access_storage_inner
    rw [h1]
    simp [hc, filterMap_diff_eq]
  · intro st b hp
    rw [List.pairwise_map] at hp ⊢
    exact hp.filter _
  · intro F K V0 V1 ed s
    refine ⟨?_, ?_, ?_, ?_⟩
    · simp [access_storage_inner, State.can_be_used_for_l1_batch, containsKey,
        List.lookup, Nat.succ_ne_self]
    · simp [composite_value, List.lookup]
    · simp [access_storage_inner, State.can_be_used_for_l1_batch, containsKey,
        List.lookup, Nat.not_succ_le_self]
    · simp [composite_value, List.lookup]

/-- Witness for `view_composition` at the concrete state `exView` (floor 3,
pending {4}, base 55 / diff 66 at slot 7). -/
theorem view_composition_witness :
    (exView.rocksdb = some exR
        ∧ (4 = exView.l1_batch_number ∨ containsKey exView.storage 4 = true))
    ∧ access_storage_inner exView false 4
        = some (.RocksdbWithMemory exR
            ((exView.storage.filter fun p => p.1 ≤ 4).map fun p => p.2.diff))
    ∧ composite_value ⟨[(7, 55)]⟩ [⟨[(7, 66)], [], []⟩] 7 = 66
    ∧ composite_value ⟨[(7, 55)]⟩ [] 7 = 55 :=
  ⟨⟨by decide, by decide⟩,
    view_composition.1 exView false 4 exR (by decide) (by decide),
    (view_composition.2.2 3 7 55 66 exData false).2.1,
    (view_composition.2.2 3 7 55 66 exData false).2.2.2⟩

/-- C8: on an iteration of the steady-state loop not interrupted at the top
(`stop = false`), the sleep-and-restart no-op path — which leaves the shared
state exactly as given — is taken if and only if the RocksDB snapshot already
records `latest_processed_batch + 1` as its next batch (it covers exactly up
to `latest_processed_batch`) and the pending map contains the
`last_ready_to_be_loaded_batch` key; in every other case, when the
synchronization completes with handle `r`, the iteration advances the
snapshot via `advanceStep`. -/
theorem noop_path_iff (store : SourceOfTruth) (loader : LoaderView)
    (cellNext : Option Nat) (syncResult : Option RocksdbStorage) (st : State) :
    (syncIteration store loader false cellNext syncResult st = .slept st ↔
      (cellNext = some (loader.latest_processed_batch + 1)
        ∧ containsKey st.storage loader.last_ready_to_be_loaded_batch = true))
    ∧ (∀ r : RocksdbStorage,
        ¬ (cellNext = some (loader.latest_processed_batch + 1)
            ∧ containsKey st.storage loader.last_ready_to_be_loaded_batch = true) →
        syncResult = some r →
        syncIteration store loader false cellNext syncResult st
          = .advanced (advanceStep store loader r st)) := by
  have hcond : noopCondition loader cellNext st = true ↔
      (cellNext = some (loader.latest_processed_batch + 1)
        ∧ containsKey st.storage loader.last_ready_to_be_loaded_batch = true) := by
    simp [noopCondition]
  constructor
  · constructor
    · intro h
      rw [← hcond]
      by_contra hc
      have hc' : noopCondition loader cellNext st = false := by
        cases hn : noopCondition loader cellNext st
        · rfl
        · exact absurd hn hc
      unfold syncIteration at h
      rw [if_neg (by simp)] at h
      rw [hc'] at h
      simp at h
      cases hs : syncResult with
      | none => rw [hs] at h; simp at h
      | some r => rw [hs] at h; simp at h
    · intro h
      unfold syncIteration
      rw [if_neg (by simp), if_pos (by rw [hcond]; exact h)]
  · intro r hne hs
    have hc' : noopCondition loader cellNext st = false := by
      cases hn : noopCondition loader cellNext st
      · rfl
      · exact absurd (hcond.mp hn) hne
    unfold syncIteration
    rw [if_neg (by simp), hs]
    simp [hc']

/-- Witness for `noop_path_iff`: with the snapshot already covering latest 11
and pending containing the last-ready key 4, the iteration sleeps; with the
no-op condition violated (pending lacks key 12), it advances. -/
theorem noop_path_iff_witness :
    ((some 12 : Option Nat) = some ((11 : Nat) + 1)
        ∧ containsKey exView.storage 4 = true)
    ∧ syncIteration exStore ⟨11, 4⟩ false (some 12) (some ⟨[(7, 11)]⟩) exView
        = .slept exView
    ∧ ¬ ((some 11 : Option Nat) = some ((10 : Nat) + 1)
        ∧ containsKey exState10.storage 12 = true)
    ∧ syncIteration exStore exLoader false (some 11) (some ⟨[(7, 0)]⟩) exState10
        = .advanced (advanceStep exStore exLoader ⟨[(7, 0)]⟩ exState10) :=
  ⟨by decide,
    ((noop_path_iff exStore ⟨11, 4⟩ (some 12) (some ⟨[(7, 11)]⟩) exView).1).mpr
      (by decide),
    by decide,
    (noop_path_iff exStore exLoader (some 11) (some ⟨[(7, 0)]⟩) exState10).2
      ⟨[(7, 0)]⟩ (by decide) rfl⟩

/-- C9: cancellation leaves the shared state untouched and ends the task
without error: if the stop signal is observed at the top of the loop the
iteration returns `stopped` with the state exactly as given, and likewise if
the stop signal interrupts the RocksDB synchronization (`syncResult = none`
on an iteration that got past the no-op check) — no floor update, snapshot
swap, eviction or preload insertion is committed. -/
theorem cancellation_preserves_state (store : SourceOfTruth)
    (loader : LoaderView) (cellNext : Option Nat) (st : State) :
    (∀ syncResult,
        syncIteration store loader true cellNext syncResult st = .stopped st)
    ∧ (noopCondition loader cellNext st = false →
        syncIteration store loader false cellNext none st = .stopped st) := by
  constructor
  · intro syncResult
    unfold syncIteration
    rw [if_pos rfl]
  · intro h
    unfold syncIteration
    rw [if_neg (by simp)]
    simp [h]

/-- Witness for `cancellation_preserves_state` at a concrete iteration. -/
theorem cancellation_preserves_state_witness :
    noopCondition exLoader (some 11) exState10 = false
    ∧ syncIteration exStore exLoader true (some 11) none exState10
        = .stopped exState10
    ∧ syncIteration exStore exLoader false (some 11) none exState10
        = .stopped exState10 :=
  ⟨by decide,
    (cancellation_preserves_state exStore exLoader (some 11) exState10).1 none,
    (cancellation_preserves_state exStore exLoader (some 11) exState10).2
      (by decide)⟩

/-- C10: the read path never consults the cancellation signal — for any two
values of the stop receiver, `access_storage` (and `access_storage_inner`)
return identical results on every state and batch number. -/
theorem read_independent_of_stop_signal (st : State) (b : Nat) (s1 s2 : Bool) :
    access_storage st s1 b = access_storage st s2 b
    ∧ access_storage_inner st s1 b = access_storage_inner st s2 b :=
  ⟨rfl, rfl⟩

end VmRunner
